import Mathlib

/-
Shallow embedding of the CHIP-8 interpreter in src/main.rs (struct VM and
its methods).  Machine integers are modelled as Nat with explicit reductions
where the Rust types wrap (u8: % 256, u16: % 65536).  Rust's panicking array
indexing (out-of-bounds) and `Option::expect` are modelled by returning
`none` from the fallible operations: `step` has type VM → Option VM, where
`none` means the Rust program panics/aborts at that point.
-/

set_option maxHeartbeats 1000000
set_option maxRecDepth 10000

/-- Pointwise update of a function, modelling an array write `f[k] = v`. -/
def upd (f : Nat → Nat) (k v : Nat) : Nat → Nat :=
  fun j => if j = k then v else f j

/-- Models `const MEMORY_SIZE: usize = 4096`. -/
def MEMORY_SIZE : Nat := 4096

/-- Models `const ROM_START: usize = 0x200`. -/
def ROM_START : Nat := 0x200

/-- Models `const FONT_START: usize = 0x050`. -/
def FONT_START : Nat := 0x050

/-- Models `const FONT: [u8; FONT_BYTES]`, the 80-byte font table. -/
def FONT : List Nat :=
  [0xF0, 0x90, 0x90, 0x90, 0xF0,
   0x20, 0x60, 0x20, 0x20, 0x70,
   0xF0, 0x10, 0xF0, 0x80, 0xF0,
   0xF0, 0x10, 0xF0, 0x10, 0xF0,
   0x90, 0x90, 0xF0, 0x10, 0x10,
   0xF0, 0x80, 0xF0, 0x10, 0xF0,
   0xF0, 0x80, 0xF0, 0x90, 0xF0,
   0xF0, 0x10, 0x20, 0x40, 0x40,
   0xF0, 0x90, 0xF0, 0x90, 0xF0,
   0xF0, 0x90, 0xF0, 0x10, 0xF0,
   0xF0, 0x90, 0xF0, 0x90, 0x90,
   0xE0, 0x90, 0xE0, 0x90, 0xE0,
   0xF0, 0x80, 0x80, 0x80, 0xF0,
   0xE0, 0x90, 0x90, 0x90, 0xE0,
   0xF0, 0x80, 0xF0, 0x80, 0xF0,
   0xF0, 0x80, 0xF0, 0x80, 0x80]

/-- The `struct VM` machine state.  Fixed-size arrays are modelled as
functions (v: 16 u8 registers, memory: 4096 bytes, framebuffer: 64*32
bytes, keyboard: 16 bools); indices outside the array bounds are junk that
no operation reads or writes.  The `Vec<u16>` call stack is a list with the
top of the stack at the head. -/
@[ext] structure VM where
  v : Nat → Nat
  pc : Nat
  i : Nat
  memory : Nat → Nat
  stack : List Nat
  framebuffer : Nat → Nat
  draw_flag : Bool
  keyboard : Nat → Bool
  delay_timer : Nat
  sound_timer : Nat

/-- Models `VM::new()`: zero-initialized state with pc = ROM_START. -/
def VM.new : VM where
  v := fun _ => 0
  pc := ROM_START
  i := 0
  memory := fun _ => 0
  stack := []
  framebuffer := fun _ => 0
  draw_flag := false
  keyboard := fun _ => false
  delay_timer := 0
  sound_timer := 0

/-- Models `VM::step_timers()`. -/
def step_timers (vm : VM) : VM :=
  { vm with
    delay_timer := if 0 < vm.delay_timer then vm.delay_timer - 1 else vm.delay_timer,
    sound_timer := if 0 < vm.sound_timer then vm.sound_timer - 1 else vm.sound_timer }

/-- Models `copy_from_slice` of a byte list into memory starting at `start`. -/
def copyList (mem : Nat → Nat) (start : Nat) : List Nat → (Nat → Nat)
  | [] => mem
  | b :: rest => copyList (upd mem start b) (start + 1) rest

/-- Models `VM::load_font()`: copies FONT into memory at FONT_START. -/
def load_font (vm : VM) : VM :=
  { vm with memory := copyList vm.memory FONT_START FONT }

/-- Models `VM::load_rom(rom)`: size check first (`end > memory.len()` exits
the process, modelled as `none`), then the copy. -/
def load_rom (vm : VM) (rom : List Nat) : Option VM :=
  if MEMORY_SIZE < ROM_START + rom.length then none
  else some { vm with memory := copyList vm.memory ROM_START rom }

/-- The Fx0A key scan: `for key in 0..16 { if keyboard[key] { ... } }`,
returning the first pressed key index in ascending order. -/
def firstPressed (kb : Nat → Bool) : List Nat → Option Nat
  | [] => none
  | k :: rest => if kb k then some k else firstPressed kb rest

/-- Inner column loop of the Dxyn sprite draw (`for col in 0..8`), acting on
the framebuffer and the collision flag v[0xF].  The framebuffer index
`((vy+row) % 32) * 64 + (vx+col) % 64` is always < 2048, so the Rust bounds
check on `framebuffer[fb_idx]` always passes. -/
def drawCols (sb vx vy row : Nat) : List Nat → (Nat → Nat) → Nat → (Nat → Nat) × Nat
  | [], fb, vf => (fb, vf)
  | col :: rest, fb, vf =>
    let fbIdx := (vy + row) % 32 * 64 + (vx + col) % 64
    let spritePixel := Nat.land (Nat.shiftRight 128 col) sb
    if spritePixel ≠ 0 ∧ fb fbIdx = 0 then
      drawCols sb vx vy row rest (upd fb fbIdx 255) vf
    else if spritePixel ≠ 0 ∧ fb fbIdx = 255 then
      drawCols sb vx vy row rest (upd fb fbIdx 0) 1
    else
      drawCols sb vx vy row rest fb vf

/-- Outer row loop of the Dxyn sprite draw (`for row in 0..n`); the sprite
byte read `memory[i + row]` panics (none) when the index is ≥ 4096. -/
def drawRows (mem : Nat → Nat) (i vx vy : Nat) :
    List Nat → (Nat → Nat) → Nat → Option ((Nat → Nat) × Nat)
  | [], fb, vf => some (fb, vf)
  | row :: rest, fb, vf =>
    if i + row < MEMORY_SIZE then
      let p := drawCols (mem (i + row)) vx vy row (List.range 8) fb vf
      drawRows mem i vx vy rest p.1 p.2
    else none

/-- Fx55 loop `for idx in 0..=x { memory[i + idx] = v[idx] }`; a write at
index ≥ 4096 panics (none). -/
def storeRegs (v : Nat → Nat) (i : Nat) : List Nat → (Nat → Nat) → Option (Nat → Nat)
  | [], mem => some mem
  | idx :: rest, mem =>
    if i + idx < MEMORY_SIZE then storeRegs v i rest (upd mem (i + idx) (v idx)) else none

/-- Fx65 loop `for idx in 0..=x { v[idx] = memory[i + idx] }`; a read at
index ≥ 4096 panics (none). -/
def loadRegs (mem : Nat → Nat) (i : Nat) : List Nat → (Nat → Nat) → Option (Nat → Nat)
  | [], v => some v
  | idx :: rest, v =>
    if i + idx < MEMORY_SIZE then loadRegs mem i rest (upd v idx (mem (i + idx))) else none

/-- Decode-execute part of `VM::step()`, applied to the state `vm1` whose
program counter has already been pre-incremented by 2, and to the fetched
16-bit opcode.  `rnd` is the oracle for `rand::random::<u8>()` used by Cxnn
(taken mod 256).  Decoding uses the identities `opcode & 0x0FFF = opcode %
4096`, `opcode & 0x00FF = opcode % 256`, `opcode & 0x000F = opcode % 16`,
`(opcode & 0x0F00) >> 8 = opcode / 256 % 16`, `(opcode & 0x00F0) >> 4 =
opcode / 16 % 16`, and the top-level dispatch on `opcode & 0xF000` compares
`opcode / 4096` with the top nibble.  The decode fields nnn, nn, n, x, y of the source are
written out inline at each use.  After a successful fetch pc ≤ 4096, so
the u16 additions `pc += 2` of the skip opcodes and `nnn + v[0]` of Bnnn
cannot overflow and are plain additions; Fx1E is an explicit
`wrapping_add`, modelled with % 65536. -/
def execOpcode (rnd : Nat) (vm1 : VM) (opcode : Nat) : Option VM :=
    if opcode / 4096 = 0x0 then
      if opcode % 256 = 0xE0 then
        some { vm1 with framebuffer := fun _ => 0, draw_flag := true }
      else if opcode % 256 = 0xEE then
        match vm1.stack with
        | [] => none
        | addr :: rest => some { vm1 with pc := addr, stack := rest }
      else some vm1
    else if opcode / 4096 = 0x1 then
      some { vm1 with pc := opcode % 4096 }
    else if opcode / 4096 = 0x2 then
      some { vm1 with stack := vm1.pc :: vm1.stack, pc := opcode % 4096 }
    else if opcode / 4096 = 0x3 then
      some (if vm1.v (opcode / 256 % 16) = opcode % 256 then { vm1 with pc := vm1.pc + 2 } else vm1)
    else if opcode / 4096 = 0x4 then
      some (if vm1.v (opcode / 256 % 16) ≠ opcode % 256 then { vm1 with pc := vm1.pc + 2 } else vm1)
    else if opcode / 4096 = 0x5 then
      some (if vm1.v (opcode / 256 % 16) = vm1.v (opcode / 16 % 16) then { vm1 with pc := vm1.pc + 2 } else vm1)
    else if opcode / 4096 = 0x6 then
      some { vm1 with v := upd vm1.v (opcode / 256 % 16) (opcode % 256) }
    else if opcode / 4096 = 0x7 then
      some { vm1 with v := upd vm1.v (opcode / 256 % 16) ((vm1.v (opcode / 256 % 16) + opcode % 256) % 256) }
    else if opcode / 4096 = 0x8 then
      if opcode % 16 = 0x0 then
        some { vm1 with v := upd vm1.v (opcode / 256 % 16) (vm1.v (opcode / 16 % 16)) }
      else if opcode % 16 = 0x1 then
        some { vm1 with v := upd vm1.v (opcode / 256 % 16) (Nat.lor (vm1.v (opcode / 256 % 16)) (vm1.v (opcode / 16 % 16))) }
      else if opcode % 16 = 0x2 then
        some { vm1 with v := upd vm1.v (opcode / 256 % 16) (Nat.land (vm1.v (opcode / 256 % 16)) (vm1.v (opcode / 16 % 16))) }
      else if opcode % 16 = 0x3 then
        some { vm1 with v := upd vm1.v (opcode / 256 % 16) (Nat.xor (vm1.v (opcode / 256 % 16)) (vm1.v (opcode / 16 % 16))) }
      else if opcode % 16 = 0x4 then
        some { vm1 with v := upd (upd vm1.v (opcode / 256 % 16) ((vm1.v (opcode / 256 % 16) + vm1.v (opcode / 16 % 16)) % 256)) 0xF (if 255 < vm1.v (opcode / 256 % 16) + vm1.v (opcode / 16 % 16) then 1 else 0) }
      else if opcode % 16 = 0x5 then
        some { vm1 with v := upd (upd vm1.v (opcode / 256 % 16) ((256 + vm1.v (opcode / 256 % 16) - vm1.v (opcode / 16 % 16)) % 256)) 0xF (if vm1.v (opcode / 256 % 16) < vm1.v (opcode / 16 % 16) then 0 else 1) }
      else if opcode % 16 = 0x6 then
        some { vm1 with v := upd (upd vm1.v 0xF (Nat.land (vm1.v (opcode / 256 % 16)) 0x01)) (opcode / 256 % 16) ((upd vm1.v 0xF (Nat.land (vm1.v (opcode / 256 % 16)) 0x01)) (opcode / 256 % 16) / 2) }
      else if opcode % 16 = 0x7 then
        some { vm1 with v := upd (upd vm1.v (opcode / 256 % 16) ((256 + vm1.v (opcode / 16 % 16) - vm1.v (opcode / 256 % 16)) % 256)) 0xF (if vm1.v (opcode / 16 % 16) < vm1.v (opcode / 256 % 16) then 0 else 1) }
      else if opcode % 16 = 0xE then
        some { vm1 with v := upd (upd vm1.v 0xF (Nat.land (vm1.v (opcode / 256 % 16)) 0x80 / 128)) (opcode / 256 % 16) ((upd vm1.v 0xF (Nat.land (vm1.v (opcode / 256 % 16)) 0x80 / 128)) (opcode / 256 % 16) * 2 % 256) }
      else some vm1
    else if opcode / 4096 = 0x9 then
      some (if vm1.v (opcode / 256 % 16) ≠ vm1.v (opcode / 16 % 16) then { vm1 with pc := vm1.pc + 2 } else vm1)
    else if opcode / 4096 = 0xA then
      some { vm1 with i := opcode % 4096 }
    else if opcode / 4096 = 0xB then
      some { vm1 with pc := opcode % 4096 + vm1.v 0 }
    else if opcode / 4096 = 0xC then
      some { vm1 with v := upd vm1.v (opcode / 256 % 16) (Nat.land (rnd % 256) (opcode % 256)) }
    else if opcode / 4096 = 0xD then
      match drawRows vm1.memory vm1.i (vm1.v (opcode / 256 % 16)) (vm1.v (opcode / 16 % 16)) (List.range (opcode % 16)) vm1.framebuffer 0 with
      | none => none
      | some p => some { vm1 with v := upd vm1.v 0xF p.2, framebuffer := p.1, draw_flag := true }
    else if opcode / 4096 = 0xE then
      if opcode % 256 = 0x9E then
        if vm1.v (opcode / 256 % 16) < 16 then
          some (if vm1.keyboard (vm1.v (opcode / 256 % 16)) then { vm1 with pc := vm1.pc + 2 } else vm1)
        else none
      else if opcode % 256 = 0xA1 then
        if vm1.v (opcode / 256 % 16) < 16 then
          some (if vm1.keyboard (vm1.v (opcode / 256 % 16)) then vm1 else { vm1 with pc := vm1.pc + 2 })
        else none
      else some vm1
    else if opcode / 4096 = 0xF then
      if opcode % 256 = 0x07 then
        some { vm1 with v := upd vm1.v (opcode / 256 % 16) vm1.delay_timer }
      else if opcode % 256 = 0x0A then
        match firstPressed vm1.keyboard (List.range 16) with
        | some key => some { vm1 with v := upd vm1.v (opcode / 256 % 16) key }
        | none => some { vm1 with pc := vm1.pc - 2 }
      else if opcode % 256 = 0x15 then
        some { vm1 with delay_timer := vm1.v (opcode / 256 % 16) }
      else if opcode % 256 = 0x18 then
        some { vm1 with sound_timer := vm1.v (opcode / 256 % 16) }
      else if opcode % 256 = 0x1E then
        some { vm1 with i := (vm1.i + vm1.v (opcode / 256 % 16)) % 65536 }
      else if opcode % 256 = 0x29 then
        some { vm1 with i := FONT_START + vm1.v (opcode / 256 % 16) * 5 }
      else if opcode % 256 = 0x33 then
        if vm1.i + 2 < MEMORY_SIZE then
          some { vm1 with memory := upd (upd (upd vm1.memory vm1.i (vm1.v (opcode / 256 % 16) / 100)) (vm1.i + 1) (vm1.v (opcode / 256 % 16) % 100 / 10)) (vm1.i + 2) (vm1.v (opcode / 256 % 16) % 10) }
        else none
      else if opcode % 256 = 0x55 then
        match storeRegs vm1.v vm1.i (List.range (opcode / 256 % 16 + 1)) vm1.memory with
        | none => none
        | some m => some { vm1 with memory := m }
      else if opcode % 256 = 0x65 then
        match loadRegs vm1.memory vm1.i (List.range (opcode / 256 % 16 + 1)) vm1.v with
        | none => none
        | some w => some { vm1 with v := w }
      else some vm1
    else
      some vm1

/-- Models `VM::step()`: one fetch-decode-execute cycle.  The fetch reads
`memory[pc]` and `memory[pc + 1]` and combines them big-endian; either read
out of bounds panics (none), modelled by the single guard
`pc + 1 < MEMORY_SIZE`.  The program counter is incremented by 2 before
dispatch; after a successful fetch pc ≤ 4094, so this u16 addition cannot
overflow and is a plain addition. -/
def step (rnd : Nat) (vm : VM) : Option VM :=
  if vm.pc + 1 < MEMORY_SIZE then
    execOpcode rnd { vm with pc := vm.pc + 2 }
      (vm.memory vm.pc * 256 + vm.memory (vm.pc + 1))
  else none

/-- Runs `m` consecutive calls of `step` (with a fixed random oracle); `none` as
soon as one of them panics. -/
def stepN (rnd : Nat) : Nat → VM → Option VM
  | 0, vm => some vm
  | m + 1, vm =>
    match step rnd vm with
    | none => none
    | some vm2 => stepN rnd m vm2

/-- Toggle of a binary pixel byte: 0x00 ↔ 0xFF.  Values other than 0x00 and
0xFF are left untouched, exactly as the two guarded branches of the draw
loop leave them untouched. -/
def toggle (a : Nat) : Nat := if a = 0 then 255 else if a = 255 then 0 else a

/-- Framebuffer index targeted by sprite row `row`, column bit `col`, for a
sprite anchored at (vx, vy): `((vy+row) % 32) * 64 + (vx+col) % 64`. -/
def posIdx (vx vy row col : Nat) : Nat := (vy + row) % 32 * 64 + (vx + col) % 64

/-- The sprite bit of byte `sb` at column `col` is set:
`(0b1000_0000 >> col) & sb != 0`. -/
def colHit (sb col : Nat) : Prop := Nat.land (Nat.shiftRight 128 col) sb ≠ 0

/-- Opcodes (split into high byte `hi` and low byte `lo`) that reach one of
the catch-all `_ => {}` arms of the decoder: 0x0nnn whose low byte is
neither 0xE0 nor 0xEE, 8xyk with k outside {0..7, 0xE}, Exnn with nn
outside {0x9E, 0xA1}, and Fxnn with nn outside the nine documented values.
Note that 5xyn and 9xyn are NOT here for any n: the decoder dispatches on
the top nibble only and ignores n for those families. -/
def Unrecognized (hi lo : Nat) : Prop :=
  (hi / 16 = 0x0 ∧ lo ≠ 0xE0 ∧ lo ≠ 0xEE) ∨
  (hi / 16 = 0x8 ∧ lo % 16 ≠ 0x0 ∧ lo % 16 ≠ 0x1 ∧ lo % 16 ≠ 0x2 ∧ lo % 16 ≠ 0x3 ∧
    lo % 16 ≠ 0x4 ∧ lo % 16 ≠ 0x5 ∧ lo % 16 ≠ 0x6 ∧ lo % 16 ≠ 0x7 ∧ lo % 16 ≠ 0xE) ∨
  (hi / 16 = 0xE ∧ lo ≠ 0x9E ∧ lo ≠ 0xA1) ∨
  (hi / 16 = 0xF ∧ lo ≠ 0x07 ∧ lo ≠ 0x0A ∧ lo ≠ 0x15 ∧ lo ≠ 0x18 ∧ lo ≠ 0x1E ∧
    lo ≠ 0x29 ∧ lo ≠ 0x33 ∧ lo ≠ 0x55 ∧ lo ≠ 0x65)

/-- Invariant: every framebuffer cell is 0x00 or 0xFF. -/
def FBInv (vm : VM) : Prop :=
  ∀ idx, vm.framebuffer idx = 0 ∨ vm.framebuffer idx = 255

/-- Concrete state: opcode F033 (BCD of V0) at pc = 0x200 with index
register 0xFFE, so the third BCD write targets memory index 0x1000. -/
def vmBcdOob : VM :=
  { VM.new with
    memory := fun a => if a = 0x200 then 0xF0 else if a = 0x201 then 0x33 else 0,
    i := 0xFFE }

/-- Concrete state: opcode 0x5011 (5xyn with n = 1) at pc = 0x200, with
V0 = V1 = 0. -/
def vmSkip5011 : VM :=
  { VM.new with
    memory := fun a => if a = 0x200 then 0x50 else if a = 0x201 then 0x11 else 0 }

/-- Concrete state: opcode 0xF0FF (Fxnn with undocumented nn) at pc = 0x200. -/
def vmNoopF0FF : VM :=
  { VM.new with
    memory := fun a => if a = 0x200 then 0xF0 else if a = 0x201 then 0xFF else 0 }

/-- Concrete state: opcode F00A (wait for key into V0) at pc = 0x200, with
no key pressed. -/
def vmKeyWait : VM :=
  { VM.new with
    memory := fun a => if a = 0x200 then 0xF0 else if a = 0x201 then 0x0A else 0 }

/-- Concrete state: opcode 8F04 (V15 := V15 + V0 with carry flag) at
pc = 0x200, with V15 = 128 and V0 = 128. -/
def vmAddClobber : VM :=
  { VM.new with
    memory := fun a => if a = 0x200 then 0x8F else if a = 0x201 then 0x04 else 0,
    v := fun j => if j = 15 then 128 else if j = 0 then 128 else 0 }

/-- Concrete state: opcode 8014 (V0 := V0 + V1 with carry flag) at
pc = 0x200, with V0 = 200 and V1 = 100. -/
def vmAddOk : VM :=
  { VM.new with
    memory := fun a => if a = 0x200 then 0x80 else if a = 0x201 then 0x14 else 0,
    v := fun j => if j = 0 then 200 else if j = 1 then 100 else 0 }

/-- Concrete state: opcode 8F05 (V15 := V15 - V0 with borrow flag) at
pc = 0x200, with V15 = 0 and V0 = 1. -/
def vmSubClobber : VM :=
  { VM.new with
    memory := fun a => if a = 0x200 then 0x8F else if a = 0x201 then 0x05 else 0,
    v := fun j => if j = 0 then 1 else 0 }

/-- Concrete state: opcode 8015 (V0 := V0 - V1 with borrow flag) at
pc = 0x200, with V0 = 5 and V1 = 7. -/
def vmSubOk : VM :=
  { VM.new with
    memory := fun a => if a = 0x200 then 0x80 else if a = 0x201 then 0x15 else 0,
    v := fun j => if j = 0 then 5 else if j = 1 then 7 else 0 }

/-- Concrete state: opcode D001 (draw 1-row sprite at (V0, V0)) at both
pc = 0x200 and pc = 0x202, index register 0x300, and the sprite byte at
0x300 equal to 0 (an all-zero sprite). -/
def vmDrawZero : VM :=
  { VM.new with
    memory := fun a =>
      if a = 0x200 then 0xD0 else if a = 0x201 then 0x01 else
      if a = 0x202 then 0xD0 else if a = 0x203 then 0x01 else 0,
    i := 0x300 }

/-- Concrete state: opcode D001 at both pc = 0x200 and pc = 0x202, index
register 0x300, sprite byte 0x80 at address 0x300, all-dark framebuffer. -/
def vmDrawDot : VM :=
  { VM.new with
    memory := fun a =>
      if a = 0x200 then 0xD0 else if a = 0x201 then 0x01 else
      if a = 0x202 then 0xD0 else if a = 0x203 then 0x01 else
      if a = 0x300 then 0x80 else 0,
    i := 0x300 }

/-- Concrete state: opcode F255 (store V0..V2) at pc = 0x200 followed by
F265 (load V0..V2) at pc = 0x202, index register 0x400, V0..V2 = 11,22,33
and V3 = 99. -/
def vmStoreLoad : VM :=
  { VM.new with
    memory := fun a =>
      if a = 0x200 then 0xF2 else if a = 0x201 then 0x55 else
      if a = 0x202 then 0xF2 else if a = 0x203 then 0x65 else 0,
    i := 0x400,
    v := fun j => if j = 0 then 11 else if j = 1 then 22 else if j = 2 then 33 else 99 }

theorem upd_self (f : Nat → Nat) (k v : Nat) : upd f k v k = v := by simp [upd]

theorem upd_ne (f : Nat → Nat) (k v j : Nat) (h : j ≠ k) : upd f k v j = f j := by
  simp [upd, h]

theorem step_eq_exec (rnd : Nat) (vm : VM) (hpc : vm.pc + 1 < 4096) :
    step rnd vm =
      execOpcode rnd { vm with pc := vm.pc + 2 }
        (vm.memory vm.pc * 256 + vm.memory (vm.pc + 1)) := by
  have h : vm.pc + 1 < MEMORY_SIZE := hpc
  unfold step
  rw [if_pos h]

theorem execOpcode_8xy4 (rnd : Nat) (vm1 : VM) (x y : Nat) (hx : x < 16) (hy : y < 16) :
    execOpcode rnd vm1 ((128 + x) * 256 + (16 * y + 4)) =
      some { vm1 with v := upd (upd vm1.v x ((vm1.v x + vm1.v y) % 256)) 15 (if 255 < vm1.v x + vm1.v y then 1 else 0) } := by
  have h1 : ((128 + x) * 256 + (16 * y + 4)) / 4096 = 8 := by omega
  have h2 : ((128 + x) * 256 + (16 * y + 4)) % 16 = 4 := by omega
  have h3 : ((128 + x) * 256 + (16 * y + 4)) / 256 % 16 = x := by omega
  have h4 : ((128 + x) * 256 + (16 * y + 4)) / 16 % 16 = y := by omega
  simp only [execOpcode, h1, h2, h3, h4]
  norm_num

theorem execOpcode_8xy5 (rnd : Nat) (vm1 : VM) (x y : Nat) (hx : x < 16) (hy : y < 16) :
    execOpcode rnd vm1 ((128 + x) * 256 + (16 * y + 5)) =
      some { vm1 with v := upd (upd vm1.v x ((256 + vm1.v x - vm1.v y) % 256)) 15 (if vm1.v x < vm1.v y then 0 else 1) } := by
  have h1 : ((128 + x) * 256 + (16 * y + 5)) / 4096 = 8 := by omega
  have h2 : ((128 + x) * 256 + (16 * y + 5)) % 16 = 5 := by omega
  have h3 : ((128 + x) * 256 + (16 * y + 5)) / 256 % 16 = x := by omega
  have h4 : ((128 + x) * 256 + (16 * y + 5)) / 16 % 16 = y := by omega
  simp only [execOpcode, h1, h2, h3, h4]
  norm_num

theorem execOpcode_Dxyn (rnd : Nat) (vm1 : VM) (x y n : Nat)
    (hx : x < 16) (hy : y < 16) (hn : n < 16) :
    execOpcode rnd vm1 ((208 + x) * 256 + (16 * y + n)) =
      match drawRows vm1.memory vm1.i (vm1.v x) (vm1.v y) (List.range n) vm1.framebuffer 0 with
      | none => none
      | some p => some { vm1 with v := upd vm1.v 15 p.2, framebuffer := p.1, draw_flag := true } := by
  have h1 : ((208 + x) * 256 + (16 * y + n)) / 4096 = 13 := by omega
  have h2 : ((208 + x) * 256 + (16 * y + n)) % 16 = n := by omega
  have h3 : ((208 + x) * 256 + (16 * y + n)) / 256 % 16 = x := by omega
  have h4 : ((208 + x) * 256 + (16 * y + n)) / 16 % 16 = y := by omega
  simp only [execOpcode, h1, h2, h3, h4]
  norm_num

theorem execOpcode_Fx0A (rnd : Nat) (vm1 : VM) (x : Nat) (hx : x < 16) :
    execOpcode rnd vm1 ((240 + x) * 256 + 0x0A) =
      match firstPressed vm1.keyboard (List.range 16) with
      | some key => some { vm1 with v := upd vm1.v x key }
      | none => some { vm1 with pc := vm1.pc - 2 } := by
  have h1 : ((240 + x) * 256 + 10) / 4096 = 15 := by omega
  have h2 : ((240 + x) * 256 + 10) % 256 = 10 := by omega
  have h3 : ((240 + x) * 256 + 10) / 256 % 16 = x := by omega
  simp only [execOpcode, h1, h2, h3]
  norm_num

theorem execOpcode_Fx55 (rnd : Nat) (vm1 : VM) (x : Nat) (hx : x < 16) :
    execOpcode rnd vm1 ((240 + x) * 256 + 0x55) =
      match storeRegs vm1.v vm1.i (List.range (x + 1)) vm1.memory with
      | none => none
      | some m => some { vm1 with memory := m } := by
  have h1 : ((240 + x) * 256 + 85) / 4096 = 15 := by omega
  have h2 : ((240 + x) * 256 + 85) % 256 = 85 := by omega
  have h3 : ((240 + x) * 256 + 85) / 256 % 16 = x := by omega
  simp only [execOpcode, h1, h2, h3]
  norm_num

theorem execOpcode_Fx65 (rnd : Nat) (vm1 : VM) (x : Nat) (hx : x < 16) :
    execOpcode rnd vm1 ((240 + x) * 256 + 0x65) =
      match loadRegs vm1.memory vm1.i (List.range (x + 1)) vm1.v with
      | none => none
      | some w => some { vm1 with v := w } := by
  have h1 : ((240 + x) * 256 + 101) / 4096 = 15 := by omega
  have h2 : ((240 + x) * 256 + 101) % 256 = 101 := by omega
  have h3 : ((240 + x) * 256 + 101) / 256 % 16 = x := by omega
  simp only [execOpcode, h1, h2, h3]
  norm_num

theorem execOpcode_unrec (rnd : Nat) (vm1 : VM) (hi lo : Nat)
    (hhi : hi < 256) (hlo : lo < 256) (hu : Unrecognized hi lo) :
    execOpcode rnd vm1 (hi * 256 + lo) = some vm1 := by
  rcases hu with ⟨h0, e1, e2⟩ | ⟨h8, e1, e2, e3, e4, e5, e6, e7, e8, e9⟩ |
    ⟨hE, e1, e2⟩ | ⟨hF, e1, e2, e3, e4, e5, e6, e7, e8, e9⟩
  · have h1 : (hi * 256 + lo) / 4096 = 0 := by omega
    have h2 : (hi * 256 + lo) % 256 = lo := by omega
    simp only [execOpcode, h1, h2]
    norm_num [e1, e2]
  · have h1 : (hi * 256 + lo) / 4096 = 8 := by omega
    have h2 : (hi * 256 + lo) % 16 = lo % 16 := by omega
    simp only [execOpcode, h1, h2]
    norm_num [e1, e2, e3, e4, e5, e6, e7, e8, e9]
  · have h1 : (hi * 256 + lo) / 4096 = 14 := by omega
    have h2 : (hi * 256 + lo) % 256 = lo := by omega
    simp only [execOpcode, h1, h2]
    norm_num [e1, e2]
  · have h1 : (hi * 256 + lo) / 4096 = 15 := by omega
    have h2 : (hi * 256 + lo) % 256 = lo := by omega
    simp only [execOpcode, h1, h2]
    norm_num [e1, e2, e3, e4, e5, e6, e7, e8, e9]

/-- Claim C1: the code does NOT mask PC/I-derived memory indices modulo 4096.
Evaluating the code at the failing input: executing Fx33 (BCD) with index
register 0xFFE makes the third BCD write target memory index 0x1000 = 4096,
and the Rust bounds check panics (modelled as none) instead of writing to
(0xFFE + 2) mod 4096 = 0 as the claim requires. -/
theorem c1_bcd_oob_panics : step 0 vmBcdOob = none := rfl

/-- Counterexample to claim C2 as stated: opcode 0x5011 is listed by the
claim as unrecognized (5xyn with n = 1), but the decoder ignores the low
nibble and executes it as SE V0, V1; with V0 = V1 = 0 the skip fires, so pc
advances by 4 (to 0x204), not by exactly 2 (0x202). -/
theorem c2_counterexample :
    Option.map VM.pc (step 0 vmSkip5011) = some 0x204 ∧
      vmSkip5011.pc + 2 = 0x202 ∧ (0x204 : Nat) ≠ 0x202 :=
  ⟨rfl, rfl, by decide⟩

/-- Claim C2 (amended): for every opcode that reaches one of the decoder's
catch-all arms - 0x0nnn with low byte outside {0xE0, 0xEE}, 8xyk with k
outside {0..7, 0xE}, Exnn with nn outside {0x9E, 0xA1}, and Fxnn with an
undocumented nn - step() is a no-op that leaves every field of the state
unchanged except the program counter, which advances by exactly 2, and
raises no error.  (5xyn/9xyn with n different from 0 are excluded: the low
nibble is ignored and they behave as 5xy0/9xy0.) -/
theorem c2_unrecognized_noop (rnd : Nat) (vm : VM) (hi lo : Nat) (hpc : vm.pc + 1 < 4096)
    (hhi : vm.memory vm.pc = hi) (hlo : vm.memory (vm.pc + 1) = lo)
    (hhi2 : hi < 256) (hlo2 : lo < 256) (hu : Unrecognized hi lo) :
    step rnd vm = some { vm with pc := vm.pc + 2 } := by
  rw [step_eq_exec rnd vm hpc, hhi, hlo, execOpcode_unrec rnd _ hi lo hhi2 hlo2 hu]

/-- Witness for claim C2: the undocumented opcode 0xF0FF is a pure no-op
advancing pc by 2. -/
theorem c2_unrecognized_noop_witness :
    step 0 vmNoopF0FF = some { vmNoopF0FF with pc := vmNoopF0FF.pc + 2 } :=
  c2_unrecognized_noop 0 vmNoopF0FF 0xF0 0xFF (by decide) rfl rfl (by decide) (by decide)
    (Or.inr (Or.inr (Or.inr ⟨rfl, by decide, by decide, by decide, by decide, by decide,
      by decide, by decide, by decide, by decide⟩)))

/-- Claim C4 (amended): for all 8-bit values a and b and every register
index x in 0-14, executing 8xy4 with Vx = a and Vy = b sets VF to 1 iff
a + b > 255 and leaves Vx equal to (a + b) mod 256.  (For x = 15 the flag
write overwrites Vx; see the counterexample.) -/
theorem c4_add_carry (rnd : Nat) (vm : VM) (x y a b : Nat) (hx : x < 15) (hy : y < 16)
    (hpc : vm.pc + 1 < 4096) (hhi : vm.memory vm.pc = 128 + x)
    (hlo : vm.memory (vm.pc + 1) = 16 * y + 4) (ha : vm.v x = a) (hb : vm.v y = b)
    (ha2 : a < 256) (hb2 : b < 256) :
    ∃ vm2, step rnd vm = some vm2 ∧ vm2.v x = (a + b) % 256 ∧
      (vm2.v 15 = 1 ↔ 255 < a + b) ∧ vm2.pc = vm.pc + 2 := by
  rw [step_eq_exec rnd vm hpc, hhi, hlo, execOpcode_8xy4 rnd _ x y (by omega) hy]
  refine ⟨_, rfl, ?_, ?_, rfl⟩
  · show upd (upd vm.v x ((vm.v x + vm.v y) % 256)) 15 (if 255 < vm.v x + vm.v y then 1 else 0) x = (a + b) % 256
    rw [upd_ne _ _ _ _ (by omega), upd_self, ha, hb]
  · show upd (upd vm.v x ((vm.v x + vm.v y) % 256)) 15 (if 255 < vm.v x + vm.v y then 1 else 0) 15 = 1 ↔ 255 < a + b
    rw [upd_self, ha, hb]
    by_cases h : 255 < a + b <;> simp [h]

/-- Witness for claim C4 at x = 0, y = 1, a = 200, b = 100. -/
theorem c4_add_carry_witness :
    ∃ vm2, step 0 vmAddOk = some vm2 ∧ vm2.v 0 = (200 + 100) % 256 ∧
      (vm2.v 15 = 1 ↔ 255 < 200 + 100) ∧ vm2.pc = vmAddOk.pc + 2 :=
  c4_add_carry 0 vmAddOk 0 1 200 100 (by decide) (by decide) (by decide) rfl rfl rfl rfl
    (by decide) (by decide)

/-- Counterexample to claim C4 as stated: with x = 15 (opcode 8F04,
V15 = V0 = 128) the carry-flag write lands on Vx itself, so V15 ends as 1,
not (128 + 128) mod 256 = 0. -/
theorem c4_counterexample :
    Option.map (fun m : VM => m.v 15) (step 0 vmAddClobber) = some 1 ∧
      ((128 + 128) % 256 : Nat) = 0 ∧ (1 : Nat) ≠ 0 :=
  ⟨rfl, rfl, by decide⟩

/-- Claim C5 (amended): for all 8-bit values a and b and every register
index x in 0-14, executing 8xy5 with Vx = a and Vy = b sets VF to 0 iff
b > a (borrow) and leaves Vx equal to (a - b) mod 256, written here as
(256 + a - b) mod 256.  (For x = 15 the flag write overwrites Vx; see the
counterexample.) -/
theorem c5_sub_borrow (rnd : Nat) (vm : VM) (x y a b : Nat) (hx : x < 15) (hy : y < 16)
    (hpc : vm.pc + 1 < 4096) (hhi : vm.memory vm.pc = 128 + x)
    (hlo : vm.memory (vm.pc + 1) = 16 * y + 5) (ha : vm.v x = a) (hb : vm.v y = b)
    (ha2 : a < 256) (hb2 : b < 256) :
    ∃ vm2, step rnd vm = some vm2 ∧ vm2.v x = (256 + a - b) % 256 ∧
      (vm2.v 15 = 0 ↔ a < b) ∧ vm2.pc = vm.pc + 2 := by
  rw [step_eq_exec rnd vm hpc, hhi, hlo, execOpcode_8xy5 rnd _ x y (by omega) hy]
  refine ⟨_, rfl, ?_, ?_, rfl⟩
  · show upd (upd vm.v x ((256 + vm.v x - vm.v y) % 256)) 15 (if vm.v x < vm.v y then 0 else 1) x = (256 + a - b) % 256
    rw [upd_ne _ _ _ _ (by omega), upd_self, ha, hb]
  · show upd (upd vm.v x ((256 + vm.v x - vm.v y) % 256)) 15 (if vm.v x < vm.v y then 0 else 1) 15 = 0 ↔ a < b
    rw [upd_self, ha, hb]
    by_cases h : a < b <;> simp [h]

/-- Witness for claim C5 at x = 0, y = 1, a = 5, b = 7. -/
theorem c5_sub_borrow_witness :
    ∃ vm2, step 0 vmSubOk = some vm2 ∧ vm2.v 0 = (256 + 5 - 7) % 256 ∧
      (vm2.v 15 = 0 ↔ 5 < 7) ∧ vm2.pc = vmSubOk.pc + 2 :=
  c5_sub_borrow 0 vmSubOk 0 1 5 7 (by decide) (by decide) (by decide) rfl rfl rfl rfl
    (by decide) (by decide)

/-- Counterexample to claim C5 as stated: with x = 15 (opcode 8F05,
V15 = 0, V0 = 1) the borrow-flag write lands on Vx itself, so V15 ends as
0, not (0 - 1) mod 256 = 255. -/
theorem c5_counterexample :
    Option.map (fun m : VM => m.v 15) (step 0 vmSubClobber) = some 0 ∧
      ((256 + 0 - 1) % 256 : Nat) = 255 ∧ (0 : Nat) ≠ 255 :=
  ⟨rfl, rfl, by decide⟩


theorem firstPressed_append (kb : Nat → Bool) (l1 l2 : List Nat) :
    firstPressed kb (l1 ++ l2) =
      match firstPressed kb l1 with
      | some k => some k
      | none => firstPressed kb l2 := by
  induction l1 with
  | nil => simp [firstPressed]
  | cons a t ih => by_cases h : kb a <;> simp [firstPressed, h, ih]

theorem firstPressed_none (kb : Nat → Bool) (l : List Nat) (h : ∀ j ∈ l, kb j = false) :
    firstPressed kb l = none := by
  induction l with
  | nil => rfl
  | cons a t ih =>
    have ha := h a (List.mem_cons_self a t)
    simp [firstPressed, ha]
    exact ih fun j hj => h j (List.mem_cons_of_mem a hj)

theorem firstPressed_range_some (kb : Nat → Bool) (k0 : Nat) (hk : k0 < 16)
    (hp : kb k0 = true) (hlow : ∀ j, j < k0 → kb j = false) :
    firstPressed kb (List.range 16) = some k0 := by
  have hdec : List.range 16 = List.range k0 ++ List.map (fun j => k0 + j) (List.range (16 - k0)) := by
    conv_lhs => rw [show (16 : Nat) = k0 + (16 - k0) by omega]
    exact List.range_add k0 (16 - k0)
  rw [hdec, firstPressed_append,
    firstPressed_none kb (List.range k0) (fun j hj => hlow j (List.mem_range.mp hj))]
  obtain ⟨s, hs⟩ : ∃ s, 16 - k0 = s + 1 := ⟨16 - k0 - 1, by omega⟩
  rw [hs, List.range_succ_eq_map]
  simp only [List.map_cons]
  show (if kb (k0 + 0) then some (k0 + 0) else _) = some k0
  simp [hp]

/-- Claim C3: while no key is pressed, executing Fx0A via step() returns the
state completely unchanged (the pre-increment of pc by 2 is exactly undone),
for arbitrarily many repeated step() calls; on a step() where at least one
key is pressed, Vx is set to the lowest-indexed pressed key and pc advances
by 2. -/
theorem c3_fx0a_wait (rnd : Nat) (vm : VM) (x : Nat) (hx : x < 16)
    (hpc : vm.pc + 1 < 4096) (hhi : vm.memory vm.pc = 240 + x)
    (hlo : vm.memory (vm.pc + 1) = 0x0A) :
    ((∀ k, k < 16 → vm.keyboard k = false) → ∀ m, stepN rnd m vm = some vm) ∧
    (∀ k0, k0 < 16 → vm.keyboard k0 = true → (∀ j, j < k0 → vm.keyboard j = false) →
      step rnd vm = some { vm with pc := vm.pc + 2, v := upd vm.v x k0 }) := by
  constructor
  · intro hnone
    have hid : step rnd vm = some vm := by
      rw [step_eq_exec rnd vm hpc, hhi, hlo, execOpcode_Fx0A rnd _ x hx]
      have hfp : firstPressed ({ vm with pc := vm.pc + 2 } : VM).keyboard (List.range 16) = none :=
        firstPressed_none _ _ (fun j hj => hnone j (List.mem_range.mp hj))
      rw [hfp]
      show some { vm with pc := vm.pc + 2 - 2 } = some vm
      rw [Nat.add_sub_cancel]
    intro m
    induction m with
    | zero => rfl
    | succ m ih => simp [stepN, hid, ih]
  · intro k0 hk0 hp hlow
    rw [step_eq_exec rnd vm hpc, hhi, hlo, execOpcode_Fx0A rnd _ x hx]
    have hfp : firstPressed ({ vm with pc := vm.pc + 2 } : VM).keyboard (List.range 16) = some k0 :=
      firstPressed_range_some _ k0 hk0 hp hlow
    rw [hfp]

/-- Witness for claim C3: three steps of F00A with no key pressed leave the
concrete state untouched. -/
theorem c3_fx0a_wait_witness :
    stepN 0 3 vmKeyWait = some vmKeyWait :=
  (c3_fx0a_wait 0 vmKeyWait 0 (by decide) (by decide) rfl rfl).1 (fun k hk => rfl) 3



theorem copyList_spec (bs : List Nat) (mem : Nat → Nat) (start a : Nat) :
    copyList mem start bs a =
      if start ≤ a ∧ a < start + bs.length then bs.getD (a - start) 0 else mem a := by
  induction bs generalizing mem start with
  | nil =>
    rw [copyList, if_neg (by simp)]
  | cons b rest ih =>
    rw [copyList, ih]
    by_cases h2 : a = start
    · rw [if_neg (by omega), h2, upd_self,
        if_pos (show start ≤ start ∧ start < start + (b :: rest).length by
          simp only [List.length_cons]; omega)]
      simp
    · by_cases h3 : start + 1 ≤ a ∧ a < start + 1 + rest.length
      · rw [if_pos h3, if_pos (by simp only [List.length_cons]; omega)]
        have he : a - start = (a - (start + 1)) + 1 := by omega
        rw [he, List.getD_cons_succ]
      · rw [if_neg h3, upd_ne _ _ _ _ h2,
          if_neg (by simp only [List.length_cons]; omega)]

/-- Claim C8: load_rom fails (the RomTooLarge process exit, modelled as
none) exactly when 0x200 + len > 4096; the check precedes the copy, so on
failure no state is produced at all; on success every ROM byte is copied to
memory starting at 0x200 and all other memory is untouched. -/
theorem c8_load_rom (vm : VM) (rom : List Nat) :
    (load_rom vm rom = none ↔ 4096 < 512 + rom.length) ∧
    (∀ vm2, load_rom vm rom = some vm2 →
      (∀ k, k < rom.length → vm2.memory (512 + k) = rom.getD k 0) ∧
      (∀ a, a < 512 ∨ 512 + rom.length ≤ a → vm2.memory a = vm.memory a)) := by
  unfold load_rom
  rw [show MEMORY_SIZE = 4096 from rfl, show ROM_START = 512 from rfl]
  by_cases h : (4096 : Nat) < 512 + rom.length
  · rw [if_pos h]
    exact ⟨⟨fun _ => h, fun _ => rfl⟩, fun vm2 habs => Option.noConfusion habs⟩
  · rw [if_neg h]
    constructor
    · exact ⟨fun habs => Option.noConfusion habs, fun hlt => absurd hlt h⟩
    · intro vm2 heq
      cases heq
      constructor
      · intro k hk
        show copyList vm.memory 512 rom (512 + k) = rom.getD k 0
        rw [copyList_spec, if_pos (by omega)]
        congr 1
        omega
      · intro a ha
        show copyList vm.memory 512 rom a = vm.memory a
        rw [copyList_spec, if_neg (by omega)]

/-- Witness for claim C8: a 3585-byte ROM is rejected and a 3584-byte ROM
is accepted. -/
theorem c8_load_rom_witness :
    load_rom VM.new (List.replicate 3585 0) = none ∧
      load_rom VM.new (List.replicate 3584 0) ≠ none := by
  constructor
  · exact (c8_load_rom VM.new _).1.mpr (by rw [List.length_replicate]; decide)
  · intro h
    have h2 := (c8_load_rom VM.new _).1.mp h
    rw [List.length_replicate] at h2
    exact absurd h2 (by decide)


theorem storeRegs_spec (v : Nat → Nat) (i : Nat) (idxs : List Nat) (mem : Nat → Nat)
    (hb : ∀ k ∈ idxs, i + k < 4096) (hnd : idxs.Nodup) :
    ∃ m, storeRegs v i idxs mem = some m ∧
      ∀ a, m a = if ∃ k ∈ idxs, i + k = a then v (a - i) else mem a := by
  induction idxs generalizing mem with
  | nil => exact ⟨mem, rfl, fun a => by rw [if_neg (by simp)]⟩
  | cons k rest ih =>
    have hk : i + k < 4096 := hb k (List.mem_cons_self k rest)
    have hnr : k ∉ rest := (List.nodup_cons.mp hnd).1
    obtain ⟨m, hm, hma⟩ := ih (upd mem (i + k) (v k))
      (fun j hj => hb j (List.mem_cons_of_mem k hj)) (List.nodup_cons.mp hnd).2
    refine ⟨m, ?_, ?_⟩
    · rw [storeRegs, if_pos (show i + k < MEMORY_SIZE from hk)]
      exact hm
    · intro a
      rw [hma a]
      by_cases h1 : ∃ j ∈ rest, i + j = a
      · rw [if_pos h1, if_pos (by
          obtain ⟨j, hj1, hj2⟩ := h1
          exact ⟨j, List.mem_cons_of_mem k hj1, hj2⟩)]
      · rw [if_neg h1]
        by_cases h2 : a = i + k
        · rw [h2, upd_self, if_pos ⟨k, List.mem_cons_self k rest, rfl⟩]
          congr 1
          omega
        · rw [upd_ne _ _ _ _ (fun hc => h2 hc), if_neg (by
            rintro ⟨j, hj1, hj2⟩
            rcases List.mem_cons.mp hj1 with rfl | hj1
            · exact h2 hj2.symm
            · exact h1 ⟨j, hj1, hj2⟩)]

theorem loadRegs_spec (mem : Nat → Nat) (i : Nat) (idxs : List Nat) (v : Nat → Nat)
    (hb : ∀ k ∈ idxs, i + k < 4096) (hnd : idxs.Nodup) :
    ∃ w, loadRegs mem i idxs v = some w ∧
      ∀ j, w j = if j ∈ idxs then mem (i + j) else v j := by
  induction idxs generalizing v with
  | nil => exact ⟨v, rfl, fun j => by rw [if_neg (by simp)]⟩
  | cons k rest ih =>
    have hk : i + k < 4096 := hb k (List.mem_cons_self k rest)
    have hnr : k ∉ rest := (List.nodup_cons.mp hnd).1
    obtain ⟨w, hw, hwj⟩ := ih (upd v k (mem (i + k)))
      (fun j hj => hb j (List.mem_cons_of_mem k hj)) (List.nodup_cons.mp hnd).2
    refine ⟨w, ?_, ?_⟩
    · rw [loadRegs, if_pos (show i + k < MEMORY_SIZE from hk)]
      exact hw
    · intro j
      rw [hwj j]
      by_cases h1 : j ∈ rest
      · rw [if_pos h1, if_pos (List.mem_cons_of_mem k h1)]
      · rw [if_neg h1]
        by_cases h2 : j = k
        · rw [h2, upd_self, if_pos (List.mem_cons_self k rest)]
        · rw [upd_ne _ _ _ _ h2, if_neg (by
            intro hc
            rcases List.mem_cons.mp hc with rfl | hc
            · exact h2 rfl
            · exact h1 hc)]

/-- Claim C10: executing Fx55 or Fx65 leaves the index register unchanged
(the no-increment variant of the load/store quirk). -/
theorem c10_store_load_keep_i (rnd : Nat) (vm : VM) (x : Nat) (vm2 : VM) (hx : x < 16)
    (hhi : vm.memory vm.pc = 240 + x)
    (hlo : vm.memory (vm.pc + 1) = 0x55 ∨ vm.memory (vm.pc + 1) = 0x65)
    (hstep : step rnd vm = some vm2) : vm2.i = vm.i := by
  have hpc : vm.pc + 1 < 4096 := by
    by_contra hge
    unfold step at hstep
    rw [if_neg (show ¬vm.pc + 1 < MEMORY_SIZE from hge)] at hstep
    exact Option.noConfusion hstep
  rcases hlo with hlo | hlo
  · rw [step_eq_exec rnd vm hpc, hhi, hlo, execOpcode_Fx55 rnd _ x hx] at hstep
    split at hstep
    · exact Option.noConfusion hstep
    · cases hstep
      rfl
  · rw [step_eq_exec rnd vm hpc, hhi, hlo, execOpcode_Fx65 rnd _ x hx] at hstep
    split at hstep
    · exact Option.noConfusion hstep
    · cases hstep
      rfl

/-- Witness for claim C10: F255 at I = 0x400 leaves I = 0x400. -/
theorem c10_store_load_keep_i_witness :
    ∃ vm2, step 0 vmStoreLoad = some vm2 ∧ vm2.i = vmStoreLoad.i := by
  have hsome : (step 0 vmStoreLoad).isSome = true := by decide
  refine ⟨(step 0 vmStoreLoad).get hsome, (Option.some_get hsome).symm, ?_⟩
  exact c10_store_load_keep_i 0 vmStoreLoad 2 _ (by decide) rfl (Or.inl rfl)
    (Option.some_get hsome).symm


/-- Claim C7: for every x in 0-15 and every initial register contents,
executing Fx55 (store V0..Vx at I), then setting V0..Vx to zero, then
executing Fx65 with the same index register value, reproduces the original
values of V0..Vx.  The hypotheses pin the scenario: both opcodes fetched
from memory, the stored block within memory bounds and not overlapping the
second instruction's two opcode bytes. -/
theorem c7_store_load_roundtrip (rnd rnd2 : Nat) (vm : VM) (x : Nat) (hx : x < 16)
    (hpc : vm.pc + 3 < 4096)
    (h1 : vm.memory vm.pc = 240 + x) (h2 : vm.memory (vm.pc + 1) = 0x55)
    (h3 : vm.memory (vm.pc + 2) = 240 + x) (h4 : vm.memory (vm.pc + 3) = 0x65)
    (hib : vm.i + x < 4096) (hdisj : vm.i + x < vm.pc + 2 ∨ vm.pc + 3 < vm.i) :
    ∃ vm1, step rnd vm = some vm1 ∧
      ∀ w : Nat → Nat, (∀ j, j ≤ x → w j = 0) →
        ∃ vm2, step rnd2 { vm1 with v := w } = some vm2 ∧
          ∀ j, j ≤ x → vm2.v j = vm.v j := by
  obtain ⟨m, hm, hma⟩ := storeRegs_spec vm.v vm.i (List.range (x + 1)) vm.memory
    (fun k hk => by have := List.mem_range.mp hk; omega) (List.nodup_range (x + 1))
  have hs1 : step rnd vm = some { vm with pc := vm.pc + 2, memory := m } := by
    rw [step_eq_exec rnd vm (by omega), h1, h2, execOpcode_Fx55 rnd _ x hx]
    show (match storeRegs vm.v vm.i (List.range (x + 1)) vm.memory with
      | none => none
      | some m => some { vm with pc := vm.pc + 2, memory := m }) = _
    rw [hm]
  refine ⟨_, hs1, ?_⟩
  intro w hw
  have hm2 : m (vm.pc + 2) = 240 + x := by
    rw [hma, if_neg ?_]
    · exact h3
    · rintro ⟨k, hk1, hk2⟩
      have := List.mem_range.mp hk1
      omega
  have hm3 : m (vm.pc + 3) = 0x65 := by
    rw [hma, if_neg ?_]
    · exact h4
    · rintro ⟨k, hk1, hk2⟩
      have := List.mem_range.mp hk1
      omega
  obtain ⟨wv, hwv, hwvj⟩ := loadRegs_spec m vm.i (List.range (x + 1)) w
    (fun k hk => by have := List.mem_range.mp hk; omega) (List.nodup_range (x + 1))
  have hf1 : ({ vm with pc := vm.pc + 2, memory := m, v := w } : VM).memory
      ({ vm with pc := vm.pc + 2, memory := m, v := w } : VM).pc = 240 + x := hm2
  have hf2 : ({ vm with pc := vm.pc + 2, memory := m, v := w } : VM).memory
      (({ vm with pc := vm.pc + 2, memory := m, v := w } : VM).pc + 1) = 0x65 := hm3
  have hs2 : step rnd2 { vm with pc := vm.pc + 2, memory := m, v := w } =
      some { vm with pc := vm.pc + 2 + 2, memory := m, v := wv } := by
    rw [step_eq_exec rnd2 _ (show vm.pc + 2 + 1 < 4096 by omega), hf1, hf2,
      execOpcode_Fx65 rnd2 _ x hx]
    show (match loadRegs m vm.i (List.range (x + 1)) w with
      | none => none
      | some wv => some { vm with pc := vm.pc + 2 + 2, memory := m, v := wv }) = _
    rw [hwv]
  refine ⟨_, hs2, ?_⟩
  intro j hj
  show wv j = vm.v j
  rw [hwvj j, if_pos (List.mem_range.mpr (by omega)), hma,
    if_pos ⟨j, List.mem_range.mpr (by omega), rfl⟩]
  congr 1
  omega

/-- Witness for claim C7 at x = 2, I = 0x400, V0..V2 = 11, 22, 33. -/
theorem c7_store_load_roundtrip_witness :
    ∃ vm1, step 0 vmStoreLoad = some vm1 ∧
      ∀ w : Nat → Nat, (∀ j, j ≤ 2 → w j = 0) →
        ∃ vm2, step 1 { vm1 with v := w } = some vm2 ∧
          ∀ j, j ≤ 2 → vm2.v j = vmStoreLoad.v j :=
  c7_store_load_roundtrip 0 1 vmStoreLoad 2 (by decide) (by decide) rfl rfl rfl rfl
    (by decide) (Or.inr (by decide))


theorem drawCols_inv (sb vx vy row : Nat) (cols : List Nat) (fb : Nat → Nat) (vf : Nat)
    (hfb : ∀ idx, fb idx = 0 ∨ fb idx = 255) :
    ∀ idx, (drawCols sb vx vy row cols fb vf).1 idx = 0 ∨
      (drawCols sb vx vy row cols fb vf).1 idx = 255 := by
  induction cols generalizing fb vf with
  | nil => exact hfb
  | cons c rest ih =>
    simp only [drawCols]
    split
    · refine ih _ _ (fun idx => ?_)
      by_cases h : idx = (vy + row) % 32 * 64 + (vx + c) % 64
      · rw [h, upd_self]
        right
        rfl
      · rw [upd_ne _ _ _ _ h]
        exact hfb idx
    · split
      · refine ih _ _ (fun idx => ?_)
        by_cases h : idx = (vy + row) % 32 * 64 + (vx + c) % 64
        · rw [h, upd_self]
          left
          rfl
        · rw [upd_ne _ _ _ _ h]
          exact hfb idx
      · exact ih _ _ hfb

theorem drawRows_inv (mem : Nat → Nat) (i vx vy : Nat) (rows : List Nat)
    (fb : Nat → Nat) (vf : Nat) (p : (Nat → Nat) × Nat)
    (h : drawRows mem i vx vy rows fb vf = some p)
    (hfb : ∀ idx, fb idx = 0 ∨ fb idx = 255) :
    ∀ idx, p.1 idx = 0 ∨ p.1 idx = 255 := by
  induction rows generalizing fb vf with
  | nil =>
    cases h
    exact hfb
  | cons r rest ih =>
    simp only [drawRows] at h
    split at h
    · exact ih _ _ h (drawCols_inv _ _ _ _ _ _ _ hfb)
    · exact Option.noConfusion h

theorem execOpcode_fb (rnd : Nat) (vm1 : VM) (opcode : Nat) (vm2 : VM)
    (h : execOpcode rnd vm1 opcode = some vm2)
    (hinv : ∀ idx, vm1.framebuffer idx = 0 ∨ vm1.framebuffer idx = 255) :
    ∀ idx, vm2.framebuffer idx = 0 ∨ vm2.framebuffer idx = 255 := by
  obtain ⟨t, ht⟩ : ∃ t, opcode / 4096 = t := ⟨_, rfl⟩
  unfold execOpcode at h
  rw [ht] at h
  rcases t with _|_|_|_|_|_|_|_|_|_|_|_|_|_|_|_|n
  · -- 0x0 family: clear screen / ret / ignored
    norm_num at h
    repeat' split at h
    all_goals try exact Option.noConfusion h
    all_goals cases h
    all_goals try exact hinv
    intro idx
    left
    rfl
  · norm_num at h
    repeat' split at h
    all_goals cases h
    all_goals exact hinv
  · norm_num at h
    repeat' split at h
    all_goals cases h
    all_goals exact hinv
  · norm_num at h
    repeat' split at h
    all_goals cases h
    all_goals exact hinv
  · norm_num at h
    repeat' split at h
    all_goals cases h
    all_goals exact hinv
  · norm_num at h
    repeat' split at h
    all_goals cases h
    all_goals exact hinv
  · norm_num at h
    repeat' split at h
    all_goals cases h
    all_goals exact hinv
  · norm_num at h
    repeat' split at h
    all_goals cases h
    all_goals exact hinv
  · norm_num at h
    repeat' split at h
    all_goals cases h
    all_goals exact hinv
  · norm_num at h
    repeat' split at h
    all_goals cases h
    all_goals exact hinv
  · norm_num at h
    repeat' split at h
    all_goals cases h
    all_goals exact hinv
  · norm_num at h
    repeat' split at h
    all_goals cases h
    all_goals exact hinv
  · norm_num at h
    repeat' split at h
    all_goals cases h
    all_goals exact hinv
  · -- 0xD: sprite draw
    norm_num at h
    split at h
    all_goals try exact Option.noConfusion h
    rename_i p heq
    cases h
    exact drawRows_inv _ _ _ _ _ _ _ _ heq hinv
  · norm_num at h
    repeat' split at h
    all_goals try exact Option.noConfusion h
    all_goals cases h
    all_goals exact hinv
  · norm_num at h
    repeat' split at h
    all_goals try exact Option.noConfusion h
    all_goals cases h
    all_goals exact hinv
  · -- top nibble ≥ 16: unreachable for real opcodes, catch-all no-op
    iterate 16 rw [if_neg (by omega)] at h
    cases h
    exact hinv


/-- Claim C9: starting from the zero-initialized state, every framebuffer
cell holds only 0x00 or 0xFF, and the invariant is preserved by step(),
step_timers(), load_font and load_rom. -/
theorem c9_framebuffer_binary :
    FBInv VM.new ∧
    (∀ rnd vm vm2, FBInv vm → step rnd vm = some vm2 → FBInv vm2) ∧
    (∀ vm, FBInv vm → FBInv (step_timers vm)) ∧
    (∀ vm, FBInv vm → FBInv (load_font vm)) ∧
    (∀ vm rom vm2, FBInv vm → load_rom vm rom = some vm2 → FBInv vm2) := by
  refine ⟨fun idx => Or.inl rfl, ?_, fun vm h => h, fun vm h => h, ?_⟩
  · intro rnd vm vm2 hinv hstep
    unfold step at hstep
    split at hstep
    · exact execOpcode_fb _ _ _ _ hstep hinv
    · exact Option.noConfusion hstep
  · intro vm rom vm2 hinv hload
    unfold load_rom at hload
    split at hload
    · exact Option.noConfusion hload
    · cases hload
      exact hinv

/-- Witness for claim C9: the invariant holds for the initial state and is
carried through step_timers. -/
theorem c9_framebuffer_binary_witness : FBInv (step_timers VM.new) :=
  c9_framebuffer_binary.2.2.1 VM.new c9_framebuffer_binary.1


theorem toggle_toggle (a : Nat) : toggle (toggle a) = a := by
  unfold toggle
  by_cases h0 : a = 0
  · simp [h0]
  · by_cases h255 : a = 255 <;> simp [h0, h255]

theorem toggle_eq_255 (a : Nat) : toggle a = 255 ↔ a = 0 := by
  unfold toggle
  by_cases h0 : a = 0
  · simp [h0]
  · by_cases h255 : a = 255 <;> simp [h0, h255]

theorem drawCols_spec (sb vx vy row : Nat) (cols : List Nat) (fb : Nat → Nat) (vf : Nat)
    (hdist : cols.Pairwise (fun c d =>
      (vy + row) % 32 * 64 + (vx + c) % 64 ≠ (vy + row) % 32 * 64 + (vx + d) % 64)) :
    (∀ idx, (drawCols sb vx vy row cols fb vf).1 idx =
      if ∃ c ∈ cols, Nat.land (Nat.shiftRight 128 c) sb ≠ 0 ∧
          (vy + row) % 32 * 64 + (vx + c) % 64 = idx
        then toggle (fb idx) else fb idx) ∧
    ((drawCols sb vx vy row cols fb vf).2 =
      if ∃ c ∈ cols, Nat.land (Nat.shiftRight 128 c) sb ≠ 0 ∧
          fb ((vy + row) % 32 * 64 + (vx + c) % 64) = 255
        then 1 else vf) := by
  induction cols generalizing fb vf with
  | nil =>
    refine ⟨fun idx => ?_, ?_⟩
    · rw [if_neg (by simp)]
      rfl
    · rw [if_neg (by simp)]
      rfl
  | cons c rest ih =>
    obtain ⟨hc, hrest⟩ := List.pairwise_cons.mp hdist
    simp only [drawCols]
    by_cases hbr1 : Nat.land (Nat.shiftRight 128 c) sb ≠ 0 ∧
        fb ((vy + row) % 32 * 64 + (vx + c) % 64) = 0
    · obtain ⟨hbit, hfb0⟩ := hbr1
      rw [if_pos ⟨hbit, hfb0⟩]
      obtain ⟨ihf, ihv⟩ := ih (upd fb ((vy + row) % 32 * 64 + (vx + c) % 64) 255) vf hrest
      constructor
      · intro idx
        rw [ihf idx]
        by_cases hidx : idx = (vy + row) % 32 * 64 + (vx + c) % 64
        · have hnr : ¬∃ d ∈ rest, Nat.land (Nat.shiftRight 128 d) sb ≠ 0 ∧
              (vy + row) % 32 * 64 + (vx + d) % 64 = idx := by
            rintro ⟨d, hd, hbd, hpd⟩
            exact hc d hd (by rw [hpd, hidx])
          rw [if_neg hnr, if_pos ⟨c, List.mem_cons_self c rest, hbit, hidx.symm⟩, hidx,
            upd_self, hfb0]
          simp [toggle]
        · rw [upd_ne fb _ 255 idx hidx]
          by_cases hrh : ∃ d ∈ rest, Nat.land (Nat.shiftRight 128 d) sb ≠ 0 ∧
              (vy + row) % 32 * 64 + (vx + d) % 64 = idx
          · obtain ⟨d, hd, hbd, hpd⟩ := hrh
            rw [if_pos ⟨d, hd, hbd, hpd⟩, if_pos ⟨d, List.mem_cons_of_mem c hd, hbd, hpd⟩]
          · have hnc : ¬∃ d ∈ c :: rest, Nat.land (Nat.shiftRight 128 d) sb ≠ 0 ∧
                (vy + row) % 32 * 64 + (vx + d) % 64 = idx := by
              rintro ⟨d, hd, hbd, hpd⟩
              rcases List.mem_cons.mp hd with rfl | hd2
              · exact hidx hpd.symm
              · exact hrh ⟨d, hd2, hbd, hpd⟩
            rw [if_neg hrh, if_neg hnc]
      · rw [ihv]
        have hiff : (∃ d ∈ rest, Nat.land (Nat.shiftRight 128 d) sb ≠ 0 ∧
            upd fb ((vy + row) % 32 * 64 + (vx + c) % 64) 255
              ((vy + row) % 32 * 64 + (vx + d) % 64) = 255) ↔
            (∃ d ∈ rest, Nat.land (Nat.shiftRight 128 d) sb ≠ 0 ∧
              fb ((vy + row) % 32 * 64 + (vx + d) % 64) = 255) := by
          constructor
          · rintro ⟨d, hd, hbd, hv⟩
            rw [upd_ne _ _ _ _ (Ne.symm (hc d hd))] at hv
            exact ⟨d, hd, hbd, hv⟩
          · rintro ⟨d, hd, hbd, hv⟩
            refine ⟨d, hd, hbd, ?_⟩
            rw [upd_ne _ _ _ _ (Ne.symm (hc d hd))]
            exact hv
        simp only [hiff]
        by_cases h2 : ∃ d ∈ rest, Nat.land (Nat.shiftRight 128 d) sb ≠ 0 ∧
            fb ((vy + row) % 32 * 64 + (vx + d) % 64) = 255
        · obtain ⟨d, hd, hbd, hv⟩ := h2
          rw [if_pos ⟨d, hd, hbd, hv⟩, if_pos ⟨d, List.mem_cons_of_mem c hd, hbd, hv⟩]
        · have hnc : ¬∃ d ∈ c :: rest, Nat.land (Nat.shiftRight 128 d) sb ≠ 0 ∧
              fb ((vy + row) % 32 * 64 + (vx + d) % 64) = 255 := by
            rintro ⟨d, hd, hbd, hv⟩
            rcases List.mem_cons.mp hd with rfl | hd2
            · rw [hfb0] at hv
              exact absurd hv (by decide)
            · exact h2 ⟨d, hd2, hbd, hv⟩
          rw [if_neg h2, if_neg hnc]
    · rw [if_neg hbr1]
      by_cases hbr2 : Nat.land (Nat.shiftRight 128 c) sb ≠ 0 ∧
          fb ((vy + row) % 32 * 64 + (vx + c) % 64) = 255
      · obtain ⟨hbit, hfb255⟩ := hbr2
        rw [if_pos ⟨hbit, hfb255⟩]
        obtain ⟨ihf, ihv⟩ := ih (upd fb ((vy + row) % 32 * 64 + (vx + c) % 64) 0) 1 hrest
        constructor
        · intro idx
          rw [ihf idx]
          by_cases hidx : idx = (vy + row) % 32 * 64 + (vx + c) % 64
          · have hnr : ¬∃ d ∈ rest, Nat.land (Nat.shiftRight 128 d) sb ≠ 0 ∧
                (vy + row) % 32 * 64 + (vx + d) % 64 = idx := by
              rintro ⟨d, hd, hbd, hpd⟩
              exact hc d hd (by rw [hpd, hidx])
            rw [if_neg hnr, if_pos ⟨c, List.mem_cons_self c rest, hbit, hidx.symm⟩, hidx,
              upd_self, hfb255]
            simp [toggle]
          · rw [upd_ne fb _ 0 idx hidx]
            by_cases hrh : ∃ d ∈ rest, Nat.land (Nat.shiftRight 128 d) sb ≠ 0 ∧
                (vy + row) % 32 * 64 + (vx + d) % 64 = idx
            · obtain ⟨d, hd, hbd, hpd⟩ := hrh
              rw [if_pos ⟨d, hd, hbd, hpd⟩, if_pos ⟨d, List.mem_cons_of_mem c hd, hbd, hpd⟩]
            · have hnc : ¬∃ d ∈ c :: rest, Nat.land (Nat.shiftRight 128 d) sb ≠ 0 ∧
                  (vy + row) % 32 * 64 + (vx + d) % 64 = idx := by
                rintro ⟨d, hd, hbd, hpd⟩
                rcases List.mem_cons.mp hd with rfl | hd2
                · exact hidx hpd.symm
                · exact hrh ⟨d, hd2, hbd, hpd⟩
              rw [if_neg hrh, if_neg hnc]
        · rw [ihv, ite_self, if_pos ⟨c, List.mem_cons_self c rest, hbit, hfb255⟩]
      · rw [if_neg hbr2]
        have hsplit : ¬Nat.land (Nat.shiftRight 128 c) sb ≠ 0 ∨
            (Nat.land (Nat.shiftRight 128 c) sb ≠ 0 ∧
              fb ((vy + row) % 32 * 64 + (vx + c) % 64) ≠ 0 ∧
              fb ((vy + row) % 32 * 64 + (vx + c) % 64) ≠ 255) := by
          by_cases hb : Nat.land (Nat.shiftRight 128 c) sb ≠ 0
          · exact Or.inr ⟨hb, fun h => hbr1 ⟨hb, h⟩, fun h => hbr2 ⟨hb, h⟩⟩
          · exact Or.inl hb
        obtain ⟨ihf, ihv⟩ := ih fb vf hrest
        constructor
        · intro idx
          rw [ihf idx]
          by_cases hrh : ∃ d ∈ rest, Nat.land (Nat.shiftRight 128 d) sb ≠ 0 ∧
              (vy + row) % 32 * 64 + (vx + d) % 64 = idx
          · obtain ⟨d, hd, hbd, hpd⟩ := hrh
            rw [if_pos ⟨d, hd, hbd, hpd⟩, if_pos ⟨d, List.mem_cons_of_mem c hd, hbd, hpd⟩]
          · rw [if_neg hrh]
            rcases hsplit with hnb | ⟨hb, hf0, hf255⟩
            · have hnc : ¬∃ d ∈ c :: rest, Nat.land (Nat.shiftRight 128 d) sb ≠ 0 ∧
                  (vy + row) % 32 * 64 + (vx + d) % 64 = idx := by
                rintro ⟨d, hd, hbd, hpd⟩
                rcases List.mem_cons.mp hd with rfl | hd2
                · exact hnb hbd
                · exact hrh ⟨d, hd2, hbd, hpd⟩
              rw [if_neg hnc]
            · by_cases hidx : idx = (vy + row) % 32 * 64 + (vx + c) % 64
              · rw [if_pos ⟨c, List.mem_cons_self c rest, hb, hidx.symm⟩, hidx]
                have : toggle (fb ((vy + row) % 32 * 64 + (vx + c) % 64)) =
                    fb ((vy + row) % 32 * 64 + (vx + c) % 64) := by
                  unfold toggle
                  rw [if_neg hf0, if_neg hf255]
                rw [this]
              · have hnc : ¬∃ d ∈ c :: rest, Nat.land (Nat.shiftRight 128 d) sb ≠ 0 ∧
                    (vy + row) % 32 * 64 + (vx + d) % 64 = idx := by
                  rintro ⟨d, hd, hbd, hpd⟩
                  rcases List.mem_cons.mp hd with rfl | hd2
                  · exact hidx hpd.symm
                  · exact hrh ⟨d, hd2, hbd, hpd⟩
                rw [if_neg hnc]
        · rw [ihv]
          by_cases h2 : ∃ d ∈ rest, Nat.land (Nat.shiftRight 128 d) sb ≠ 0 ∧
              fb ((vy + row) % 32 * 64 + (vx + d) % 64) = 255
          · obtain ⟨d, hd, hbd, hv⟩ := h2
            rw [if_pos ⟨d, hd, hbd, hv⟩, if_pos ⟨d, List.mem_cons_of_mem c hd, hbd, hv⟩]
          · have hnc : ¬∃ d ∈ c :: rest, Nat.land (Nat.shiftRight 128 d) sb ≠ 0 ∧
                fb ((vy + row) % 32 * 64 + (vx + d) % 64) = 255 := by
              rintro ⟨d, hd, hbd, hv⟩
              rcases List.mem_cons.mp hd with rfl | hd2
              · exact hbr2 ⟨hbd, hv⟩
              · exact h2 ⟨d, hd2, hbd, hv⟩
            rw [if_neg h2, if_neg hnc]


theorem drawRows_spec (mem : Nat → Nat) (i vx vy : Nat) (rows : List Nat)
    (fb : Nat → Nat) (vf : Nat)
    (hb : ∀ r ∈ rows, i + r < 4096)
    (hdist : rows.Pairwise (fun r s => (vy + r) % 32 ≠ (vy + s) % 32)) :
    ∃ q, drawRows mem i vx vy rows fb vf = some q ∧
      (∀ idx, q.1 idx =
        if ∃ r ∈ rows, ∃ c ∈ List.range 8,
            Nat.land (Nat.shiftRight 128 c) (mem (i + r)) ≠ 0 ∧
            (vy + r) % 32 * 64 + (vx + c) % 64 = idx
          then toggle (fb idx) else fb idx) ∧
      (q.2 =
        if ∃ r ∈ rows, ∃ c ∈ List.range 8,
            Nat.land (Nat.shiftRight 128 c) (mem (i + r)) ≠ 0 ∧
            fb ((vy + r) % 32 * 64 + (vx + c) % 64) = 255
          then 1 else vf) := by
  induction rows generalizing fb vf with
  | nil =>
    refine ⟨(fb, vf), rfl, fun idx => ?_, ?_⟩
    · rw [if_neg (by simp)]
    · rw [if_neg (by simp)]
  | cons r rest ih =>
    obtain ⟨hr, hrest⟩ := List.pairwise_cons.mp hdist
    have hcross : ∀ s ∈ rest, ∀ c d : Nat,
        (vy + r) % 32 * 64 + (vx + c) % 64 ≠ (vy + s) % 32 * 64 + (vx + d) % 64 := by
      intro s hs c d hEq
      have h1 : (vx + c) % 64 < 64 := Nat.mod_lt _ (by omega)
      have h2 : (vx + d) % 64 < 64 := Nat.mod_lt _ (by omega)
      exact hr s hs (by omega)
    have hpair : (List.range 8).Pairwise (fun c d =>
        (vy + r) % 32 * 64 + (vx + c) % 64 ≠ (vy + r) % 32 * 64 + (vx + d) % 64) := by
      rw [List.pairwise_iff_getElem]
      intro a b ha hb' hab
      simp only [List.getElem_range]
      simp only [List.length_range] at ha hb'
      omega
    obtain ⟨cihf, cihv⟩ := drawCols_spec (mem (i + r)) vx vy r (List.range 8) fb vf hpair
    obtain ⟨q, hq, hqf, hqv⟩ := ih
      (drawCols (mem (i + r)) vx vy r (List.range 8) fb vf).1
      (drawCols (mem (i + r)) vx vy r (List.range 8) fb vf).2
      (fun s hs => hb s (List.mem_cons_of_mem r hs)) hrest
    refine ⟨q, ?_, ?_, ?_⟩
    · simp only [drawRows]
      rw [if_pos (show i + r < MEMORY_SIZE from hb r (List.mem_cons_self r rest))]
      exact hq
    · intro idx
      rw [hqf idx, cihf idx]
      by_cases hrh : ∃ s ∈ rest, ∃ c ∈ List.range 8,
          Nat.land (Nat.shiftRight 128 c) (mem (i + s)) ≠ 0 ∧
          (vy + s) % 32 * 64 + (vx + c) % 64 = idx
      · have hnrow : ¬∃ c ∈ List.range 8,
            Nat.land (Nat.shiftRight 128 c) (mem (i + r)) ≠ 0 ∧
            (vy + r) % 32 * 64 + (vx + c) % 64 = idx := by
          rintro ⟨c, hc8, hbc, hpc⟩
          obtain ⟨s, hs, d, hd8, hbd, hpd⟩ := hrh
          exact hcross s hs c d (by rw [hpc, hpd])
        obtain ⟨s, hs, d, hd8, hbd, hpd⟩ := hrh
        rw [if_pos ⟨s, hs, d, hd8, hbd, hpd⟩, if_neg hnrow,
          if_pos ⟨s, List.mem_cons_of_mem r hs, d, hd8, hbd, hpd⟩]
      · rw [if_neg hrh]
        by_cases hrow : ∃ c ∈ List.range 8,
            Nat.land (Nat.shiftRight 128 c) (mem (i + r)) ≠ 0 ∧
            (vy + r) % 32 * 64 + (vx + c) % 64 = idx
        · obtain ⟨c, hc8, hbc, hpc⟩ := hrow
          rw [if_pos ⟨c, hc8, hbc, hpc⟩,
            if_pos ⟨r, List.mem_cons_self r rest, c, hc8, hbc, hpc⟩]
        · have hnc : ¬∃ s ∈ r :: rest, ∃ c ∈ List.range 8,
              Nat.land (Nat.shiftRight 128 c) (mem (i + s)) ≠ 0 ∧
              (vy + s) % 32 * 64 + (vx + c) % 64 = idx := by
            rintro ⟨s, hs, c, hc8, hbc, hpc⟩
            rcases List.mem_cons.mp hs with rfl | hs2
            · exact hrow ⟨c, hc8, hbc, hpc⟩
            · exact hrh ⟨s, hs2, c, hc8, hbc, hpc⟩
          rw [if_neg hrow, if_neg hnc]
    · rw [hqv, cihv]
      have hiff : (∃ s ∈ rest, ∃ c ∈ List.range 8,
          Nat.land (Nat.shiftRight 128 c) (mem (i + s)) ≠ 0 ∧
          (drawCols (mem (i + r)) vx vy r (List.range 8) fb vf).1
            ((vy + s) % 32 * 64 + (vx + c) % 64) = 255) ↔
          (∃ s ∈ rest, ∃ c ∈ List.range 8,
            Nat.land (Nat.shiftRight 128 c) (mem (i + s)) ≠ 0 ∧
            fb ((vy + s) % 32 * 64 + (vx + c) % 64) = 255) := by
      -- positions of rest rows are never hit by row r
        have hnr : ∀ s ∈ rest, ∀ c : Nat,
            (drawCols (mem (i + r)) vx vy r (List.range 8) fb vf).1
              ((vy + s) % 32 * 64 + (vx + c) % 64) =
            fb ((vy + s) % 32 * 64 + (vx + c) % 64) := by
          intro s hs c
          rw [cihf ((vy + s) % 32 * 64 + (vx + c) % 64), if_neg ?_]
          rintro ⟨d, hd8, hbd, hpd⟩
          exact hcross s hs d c hpd
        constructor
        · rintro ⟨s, hs, c, hc8, hbc, hv⟩
          rw [hnr s hs c] at hv
          exact ⟨s, hs, c, hc8, hbc, hv⟩
        · rintro ⟨s, hs, c, hc8, hbc, hv⟩
          refine ⟨s, hs, c, hc8, hbc, ?_⟩
          rw [hnr s hs c]
          exact hv
      simp only [hiff]
      by_cases h2 : ∃ s ∈ rest, ∃ c ∈ List.range 8,
          Nat.land (Nat.shiftRight 128 c) (mem (i + s)) ≠ 0 ∧
          fb ((vy + s) % 32 * 64 + (vx + c) % 64) = 255
      · obtain ⟨s, hs, c, hc8, hbc, hv⟩ := h2
        rw [if_pos ⟨s, hs, c, hc8, hbc, hv⟩,
          if_pos ⟨s, List.mem_cons_of_mem r hs, c, hc8, hbc, hv⟩]
      · rw [if_neg h2]
        by_cases h3 : ∃ c ∈ List.range 8,
            Nat.land (Nat.shiftRight 128 c) (mem (i + r)) ≠ 0 ∧
            fb ((vy + r) % 32 * 64 + (vx + c) % 64) = 255
        · obtain ⟨c, hc8, hbc, hv⟩ := h3
          rw [if_pos ⟨c, hc8, hbc, hv⟩,
            if_pos ⟨r, List.mem_cons_self r rest, c, hc8, hbc, hv⟩]
        · have hnc : ¬∃ s ∈ r :: rest, ∃ c ∈ List.range 8,
              Nat.land (Nat.shiftRight 128 c) (mem (i + s)) ≠ 0 ∧
              fb ((vy + s) % 32 * 64 + (vx + c) % 64) = 255 := by
            rintro ⟨s, hs, c, hc8, hbc, hv⟩
            rcases List.mem_cons.mp hs with rfl | hs2
            · exact h3 ⟨c, hc8, hbc, hv⟩
            · exact h2 ⟨s, hs2, c, hc8, hbc, hv⟩
          rw [if_neg h3, if_neg hnc]


theorem step_draw (rnd : Nat) (vmA : VM) (x y n : Nat) (hx : x < 16) (hy : y < 16)
    (hn : n < 16) (hpc : vmA.pc + 1 < 4096) (hh : vmA.memory vmA.pc = 208 + x)
    (hl : vmA.memory (vmA.pc + 1) = 16 * y + n) (q : (Nat → Nat) × Nat)
    (hq : drawRows vmA.memory vmA.i (vmA.v x) (vmA.v y) (List.range n) vmA.framebuffer 0 =
      some q) :
    step rnd vmA = some { vmA with pc := vmA.pc + 2, v := upd vmA.v 15 q.2, framebuffer := q.1, draw_flag := true } := by
  rw [step_eq_exec rnd vmA hpc, hh, hl, execOpcode_Dxyn rnd _ x y n hx hy hn]
  show (match drawRows vmA.memory vmA.i (vmA.v x) (vmA.v y) (List.range n)
      vmA.framebuffer 0 with
    | none => none
    | some p => some { vmA with pc := vmA.pc + 2, v := upd vmA.v 15 p.2, framebuffer := p.1, draw_flag := true }) = _
  rw [hq]

/-- Counterexample to claim C6 as stated: drawing the all-zero one-row
sprite twice (opcode D001 with the sprite byte 0) leaves VF = 0 after the
second draw, not 1. -/
theorem c6_counterexample :
    Option.map (fun m : VM => m.v 15) ((step 0 vmDrawZero).bind (step 0)) = some 0 ∧
      (0 : Nat) ≠ 1 :=
  ⟨rfl, by decide⟩

/-- Claim C6 (amended): executing the same Dxyn twice (same sprite bytes in
memory, same Vx and Vy with x, y different from 15, sprite rows within the
4096-byte memory) restores every framebuffer pixel to its state before the
first draw, and the second draw sets VF to 1 if and only if at least one
drawn sprite bit targets a pixel that was off (0x00) before the first
draw. -/
theorem c6_draw_twice (rnd rnd2 : Nat) (vm : VM) (x y n : Nat)
    (hx : x < 16) (hy : y < 16) (hn : n < 16) (hx15 : x ≠ 15) (hy15 : y ≠ 15)
    (hpc : vm.pc + 3 < 4096)
    (h1 : vm.memory vm.pc = 208 + x) (h2 : vm.memory (vm.pc + 1) = 16 * y + n)
    (h3 : vm.memory (vm.pc + 2) = 208 + x) (h4 : vm.memory (vm.pc + 3) = 16 * y + n)
    (hin : vm.i + n ≤ 4096 ∨ n = 0) :
    ∃ vm1 vm2, step rnd vm = some vm1 ∧ step rnd2 vm1 = some vm2 ∧
      (∀ idx, vm2.framebuffer idx = vm.framebuffer idx) ∧
      (vm2.v 15 = 1 ↔ ∃ r ∈ List.range n, ∃ c ∈ List.range 8,
        Nat.land (Nat.shiftRight 128 c) (vm.memory (vm.i + r)) ≠ 0 ∧
        vm.framebuffer ((vm.v y + r) % 32 * 64 + (vm.v x + c) % 64) = 0) := by
  have hb : ∀ r ∈ List.range n, vm.i + r < 4096 := by
    intro r hr
    have := List.mem_range.mp hr
    rcases hin with hin | hin <;> omega
  have hrowpair : (List.range n).Pairwise
      (fun r s => (vm.v y + r) % 32 ≠ (vm.v y + s) % 32) := by
    rw [List.pairwise_iff_getElem]
    intro a b ha hb' hab
    simp only [List.getElem_range]
    simp only [List.length_range] at ha hb'
    omega
  obtain ⟨q1, hq1, hq1f, hq1v⟩ := drawRows_spec vm.memory vm.i (vm.v x) (vm.v y)
    (List.range n) vm.framebuffer 0 hb hrowpair
  have hs1 : step rnd vm = some { vm with pc := vm.pc + 2, v := upd vm.v 15 q1.2, framebuffer := q1.1, draw_flag := true } :=
    step_draw rnd vm x y n hx hy hn (by omega) h1 h2 q1 hq1
  obtain ⟨q2, hq2, hq2f, hq2v⟩ := drawRows_spec vm.memory vm.i (vm.v x) (vm.v y)
    (List.range n) q1.1 0 hb hrowpair
  have hvx : upd vm.v 15 q1.2 x = vm.v x := upd_ne vm.v 15 q1.2 x hx15
  have hvy : upd vm.v 15 q1.2 y = vm.v y := upd_ne vm.v 15 q1.2 y hy15
  have hq2x : drawRows vm.memory vm.i (upd vm.v 15 q1.2 x) (upd vm.v 15 q1.2 y)
      (List.range n) q1.1 0 = some q2 := by
    rw [hvx, hvy]
    exact hq2
  have hs2 : step rnd2 { vm with pc := vm.pc + 2, v := upd vm.v 15 q1.2, framebuffer := q1.1, draw_flag := true } = some { vm with pc := vm.pc + 2 + 2, v := upd (upd vm.v 15 q1.2) 15 q2.2, framebuffer := q2.1, draw_flag := true } :=
    step_draw rnd2 _ x y n hx hy hn (show vm.pc + 2 + 1 < 4096 by omega) h3 h4 q2 hq2x
  refine ⟨_, _, hs1, hs2, ?_, ?_⟩
  · intro idx
    show q2.1 idx = vm.framebuffer idx
    rw [hq2f idx, hq1f idx]
    by_cases hh : ∃ r ∈ List.range n, ∃ c ∈ List.range 8,
        Nat.land (Nat.shiftRight 128 c) (vm.memory (vm.i + r)) ≠ 0 ∧
        (vm.v y + r) % 32 * 64 + (vm.v x + c) % 64 = idx
    · rw [if_pos hh, if_pos hh, toggle_toggle]
    · rw [if_neg hh, if_neg hh]
  · show upd (upd vm.v 15 q1.2) 15 q2.2 15 = 1 ↔ _
    rw [upd_self, hq2v]
    have hC : (∃ r ∈ List.range n, ∃ c ∈ List.range 8,
        Nat.land (Nat.shiftRight 128 c) (vm.memory (vm.i + r)) ≠ 0 ∧
        q1.1 ((vm.v y + r) % 32 * 64 + (vm.v x + c) % 64) = 255) ↔
        (∃ r ∈ List.range n, ∃ c ∈ List.range 8,
          Nat.land (Nat.shiftRight 128 c) (vm.memory (vm.i + r)) ≠ 0 ∧
          vm.framebuffer ((vm.v y + r) % 32 * 64 + (vm.v x + c) % 64) = 0) := by
      constructor
      · rintro ⟨r, hr, c, hc8, hbc, hv⟩
        refine ⟨r, hr, c, hc8, hbc, ?_⟩
        rw [hq1f _, if_pos ⟨r, hr, c, hc8, hbc, rfl⟩] at hv
        exact (toggle_eq_255 _).mp hv
      · rintro ⟨r, hr, c, hc8, hbc, hv⟩
        refine ⟨r, hr, c, hc8, hbc, ?_⟩
        rw [hq1f _, if_pos ⟨r, hr, c, hc8, hbc, rfl⟩]
        exact (toggle_eq_255 _).mpr hv
    by_cases hc2 : ∃ r ∈ List.range n, ∃ c ∈ List.range 8,
        Nat.land (Nat.shiftRight 128 c) (vm.memory (vm.i + r)) ≠ 0 ∧
        q1.1 ((vm.v y + r) % 32 * 64 + (vm.v x + c) % 64) = 255
    · rw [if_pos hc2]
      exact ⟨fun _ => hC.mp hc2, fun _ => rfl⟩
    · rw [if_neg hc2]
      exact ⟨fun h => absurd h (by decide), fun ht => absurd (hC.mpr ht) hc2⟩

/-- Witness for claim C6: double-draw of the one-pixel sprite 0x80 on a
dark screen. -/
theorem c6_draw_twice_witness :
    ∃ vm1 vm2, step 0 vmDrawDot = some vm1 ∧ step 1 vm1 = some vm2 ∧
      (∀ idx, vm2.framebuffer idx = vmDrawDot.framebuffer idx) ∧
      (vm2.v 15 = 1 ↔ ∃ r ∈ List.range 1, ∃ c ∈ List.range 8,
        Nat.land (Nat.shiftRight 128 c) (vmDrawDot.memory (vmDrawDot.i + r)) ≠ 0 ∧
        vmDrawDot.framebuffer
          ((vmDrawDot.v 0 + r) % 32 * 64 + (vmDrawDot.v 0 + c) % 64) = 0) :=
  c6_draw_twice 0 1 vmDrawDot 0 0 1 (by decide) (by decide) (by decide) (by decide)
    (by decide) (by decide) rfl rfl rfl rfl (Or.inl (by decide))
